import Mathlib

/-!
Shallow embedding of the GitHub MCP server core
(`github_mcp_server/server.py`) and verification of its specification.

Python strings are modelled as Lean `String` (sequences of code points),
Python ints as `Int` (or `Nat` where the source value is a count), Python
`None`/optional values as `Option`, and raised exceptions as explicit
error results.  The remote service (PyGithub client calls and raw
`requests.get` calls) is modelled as an oracle function passed in as a
parameter: the oracle's answer for a path encodes whether the underlying
call returned data, returned a non-200 status, or raised an exception.
-/

namespace GH

/-- One entry of a directory listing as seen through the PyGithub client
(`content.name`, `content.type`, `content.path`, `content.size`).
`type` is the literal string the service reports ("file", "dir", ...). -/
structure PgEntry where
  name : String
  type : String
  path : String
  size : Int
  deriving DecidableEq, Repr

/-- One entry of a directory listing as seen through the raw REST API
(`content["name"]`, `content["type"]`, `content["path"]`,
`content.get("size")`; the size key may be absent). -/
structure ApiEntry where
  name : String
  type : String
  path : String
  size : Option Int
  deriving DecidableEq, Repr

/-- Outcome of `repo_obj.get_contents(path)` on the PyGithub path:
either a listing, or a raised exception. -/
inductive PgResult where
  | ok (entries : List PgEntry)
  | exn
  deriving DecidableEq, Repr

/-- Outcome of `requests.get(contents-url)` on the fallback path:
`success` is a 200 response whose JSON body decoded to a listing,
`failure c` is a response with non-200 status code `c`, and `exn` is a
raised exception (during the GET or while decoding the body). -/
inductive ApiResult where
  | success (entries : List ApiEntry)
  | failure (code : Nat)
  | exn
  deriving DecidableEq, Repr

/-- A node of the structure tree: the dict
`item = \x7bname, type, path, size, children?\x7d` built by
`_build_structure_tree` / `_build_structure_tree_api`.  The `children`
key is absent (`none`) when the builder never assigned it. -/
inductive TreeNode where
  | mk (name : String) (type : String) (path : String)
       (size : Option Int) (children : Option (List TreeNode))
  deriving Repr

def TreeNode.name : TreeNode → String
  | .mk n _ _ _ _ => n

def TreeNode.type : TreeNode → String
  | .mk _ t _ _ _ => t

def TreeNode.path : TreeNode → String
  | .mk _ _ p _ _ => p

def TreeNode.size : TreeNode → Option Int
  | .mk _ _ _ s _ => s

def TreeNode.children : TreeNode → Option (List TreeNode)
  | .mk _ _ _ _ c => c

/-- `_build_structure_tree(contents, repo_obj, max_depth, current_depth)`:
the PyGithub variant.  `oracle` stands for
`repo_obj.get_contents(content.path)`; a raised exception there is the
`.exn` case and yields `children = []`. -/
def build_structure_tree (oracle : String → PgResult)
    (contents : List PgEntry) (max_depth current_depth : Int) :
    List TreeNode :=
  if current_depth ≥ max_depth then
    []
  else
    contents.map fun content =>
      TreeNode.mk content.name content.type content.path
        (if content.type = "file" then some content.size else none)
        (if h : content.type = "dir" ∧ current_depth < max_depth - 1 then
          match oracle content.path with
          | .ok sub_contents =>
              some (build_structure_tree oracle sub_contents max_depth
                (current_depth + 1))
          | .exn => some []
        else
          none)
  termination_by (max_depth - current_depth).toNat
  decreasing_by
    simp_wf
    omega

/-- `_build_structure_tree_api(contents, owner, repo, max_depth,
current_depth)`: the fallback variant.  `oracle` stands for the
`requests.get` call on the contents URL of a path (owner and repo are
fixed for the whole walk); a non-200 status or an exception yields
`children = []`. -/
def build_structure_tree_api (oracle : String → ApiResult)
    (contents : List ApiEntry) (max_depth current_depth : Int) :
    List TreeNode :=
  if current_depth ≥ max_depth then
    []
  else
    contents.map fun content =>
      TreeNode.mk content.name content.type content.path
        (if content.type = "file" then content.size else none)
        (if h : content.type = "dir" ∧ current_depth < max_depth - 1 then
          match oracle content.path with
          | .success sub_contents =>
              some (build_structure_tree_api oracle sub_contents max_depth
                (current_depth + 1))
          | .failure _ => some []
          | .exn => some []
        else
          none)
  termination_by (max_depth - current_depth).toNat
  decreasing_by
    simp_wf
    omega

/-- Python's `s.split(sep)` for a one-character separator, over the
character list of the string: `pySplit c [] = [[]]` just as
`"".split(sep) == [""]`, and consecutive separators yield empty pieces.
The `[]` branch of the inner match is unreachable (the result is always
nonempty). -/
def pySplit (c : Char) : List Char → List (List Char)
  | [] => [[]]
  | x :: xs =>
    match pySplit c xs with
    | piece :: rest =>
        if x = c then [] :: piece :: rest else (x :: piece) :: rest
    | [] => [[x]]

/-- Number of slash-separated components of a path string; empty
components (as produced by a leading slash or by the empty path) do not
count. -/
def componentCount (p : String) : Nat :=
  ((pySplit '/' p.data).filter (fun s => s ≠ [])).length

mutual

/-- Every `path` field occurring in a tree node, the node's own included. -/
def allPaths : TreeNode → List String
  | .mk _ _ p _ none => [p]
  | .mk _ _ p _ (some cs) => p :: allPathsList cs

/-- Every `path` field occurring in a list of tree nodes. -/
def allPathsList : List TreeNode → List String
  | [] => []
  | n :: ns => allPaths n ++ allPathsList ns

end

theorem mem_allPathsList {p : String} {l : List TreeNode} :
    p ∈ allPathsList l ↔ ∃ n ∈ l, p ∈ allPaths n := by
  induction l with
  | nil => simp [allPathsList]
  | cons n ns ih => simp [allPathsList, ih]

theorem mem_allPaths {p : String} (name type path : String)
    (size : Option Int) (children : Option (List TreeNode)) :
    p ∈ allPaths (.mk name type path size children) ↔
      p = path ∨ ∃ cs, children = some cs ∧ p ∈ allPathsList cs := by
  cases children with
  | none => simp [allPaths]
  | some cs => simp [allPaths]

/-- Depth bound for the PyGithub walk: if every entry of the starting
listing sits at most `c` components deep and the service only ever
reports children one component deeper than their parent, then every
path in the built tree sits at most `c + (max_depth - 1 - current_depth)`
components deep. -/
theorem build_structure_tree_path_bound (oracle : String → PgResult)
    (hwf : ∀ pa es, oracle pa = .ok es → ∀ e ∈ es,
      componentCount e.path ≤ componentCount pa + 1) :
    ∀ (n : Nat) (max_depth current_depth : Int),
      (max_depth - current_depth).toNat = n →
      ∀ (contents : List PgEntry) (c : Nat),
        (∀ e ∈ contents, componentCount e.path ≤ c) →
        ∀ p ∈ allPathsList
          (build_structure_tree oracle contents max_depth current_depth),
          (componentCount p : Int) ≤ c + (max_depth - 1 - current_depth) := by
  intro n
  induction n using Nat.strong_induction_on with
  | _ n ih =>
    intro md cd hn contents c hc p hp
    rw [build_structure_tree] at hp
    by_cases hge : cd ≥ md
    · rw [if_pos hge] at hp
      simp [allPathsList] at hp
    · rw [if_neg hge] at hp
      rw [mem_allPathsList] at hp
      obtain ⟨node, hnode, hpn⟩ := hp
      rw [List.mem_map] at hnode
      obtain ⟨e, he, rfl⟩ := hnode
      rw [mem_allPaths] at hpn
      rcases hpn with rfl | ⟨cs, hcs, hpcs⟩
      · have := hc e he
        omega
      · split at hcs
        next hdir =>
          rcases ho : oracle e.path with sub | _ <;> rw [ho] at hcs
          · have hcs' : build_structure_tree oracle sub md (cd + 1) = cs :=
              Option.some.inj hcs
            subst hcs'
            have hsub : ∀ e' ∈ sub, componentCount e'.path ≤ c + 1 := by
              intro e' he'
              have h1 := hwf e.path sub ho e' he'
              have h2 := hc e he
              omega
            have hrec := ih ((md - (cd + 1)).toNat) (by omega) md (cd + 1)
              rfl sub (c + 1) hsub p hpcs
            push_cast at hrec ⊢
            omega
          · have hcs' : ([] : List TreeNode) = cs := Option.some.inj hcs
            subst hcs'
            simp [allPathsList] at hpcs
        next hnd =>
          exact absurd hcs (by simp)

/-- Depth bound for the fallback walk, mirroring
`build_structure_tree_path_bound`. -/
theorem build_structure_tree_api_path_bound (oracle : String → ApiResult)
    (hwf : ∀ pa es, oracle pa = .success es → ∀ e ∈ es,
      componentCount e.path ≤ componentCount pa + 1) :
    ∀ (n : Nat) (max_depth current_depth : Int),
      (max_depth - current_depth).toNat = n →
      ∀ (contents : List ApiEntry) (c : Nat),
        (∀ e ∈ contents, componentCount e.path ≤ c) →
        ∀ p ∈ allPathsList
          (build_structure_tree_api oracle contents max_depth current_depth),
          (componentCount p : Int) ≤ c + (max_depth - 1 - current_depth) := by
  intro n
  induction n using Nat.strong_induction_on with
  | _ n ih =>
    intro md cd hn contents c hc p hp
    rw [build_structure_tree_api] at hp
    by_cases hge : cd ≥ md
    · rw [if_pos hge] at hp
      simp [allPathsList] at hp
    · rw [if_neg hge] at hp
      rw [mem_allPathsList] at hp
      obtain ⟨node, hnode, hpn⟩ := hp
      rw [List.mem_map] at hnode
      obtain ⟨e, he, rfl⟩ := hnode
      rw [mem_allPaths] at hpn
      rcases hpn with rfl | ⟨cs, hcs, hpcs⟩
      · have := hc e he
        omega
      · split at hcs
        next hdir =>
          rcases ho : oracle e.path with sub | code | _ <;> rw [ho] at hcs
          · have hcs' : build_structure_tree_api oracle sub md (cd + 1) = cs :=
              Option.some.inj hcs
            subst hcs'
            have hsub : ∀ e' ∈ sub, componentCount e'.path ≤ c + 1 := by
              intro e' he'
              have h1 := hwf e.path sub ho e' he'
              have h2 := hc e he
              omega
            have hrec := ih ((md - (cd + 1)).toNat) (by omega) md (cd + 1)
              rfl sub (c + 1) hsub p hpcs
            push_cast at hrec ⊢
            omega
          · have hcs' : ([] : List TreeNode) = cs := Option.some.inj hcs
            subst hcs'
            simp [allPathsList] at hpcs
          · have hcs' : ([] : List TreeNode) = cs := Option.some.inj hcs
            subst hcs'
            simp [allPathsList] at hpcs
        next hnd =>
          exact absurd hcs (by simp)

theorem build_structure_tree_eq_nil (oracle : String → PgResult)
    (contents : List PgEntry) {max_depth current_depth : Int}
    (h : current_depth ≥ max_depth) :
    build_structure_tree oracle contents max_depth current_depth = [] := by
  rw [build_structure_tree, if_pos h]

theorem build_structure_tree_api_eq_nil (oracle : String → ApiResult)
    (contents : List ApiEntry) {max_depth current_depth : Int}
    (h : current_depth ≥ max_depth) :
    build_structure_tree_api oracle contents max_depth current_depth = [] := by
  rw [build_structure_tree_api, if_pos h]

/-- C1: both Structure Tree Builder variants return the empty sequence
when `max_depth = 0`, and with `max_depth = N` no node of the result has
a path whose component count exceeds the root depth `r` plus `N`
(the starting listing sits directly below the root, i.e. at `r + 1`
components, and the service reports children one component deeper than
their parent). -/
theorem spec_C1 (opg : String → PgResult) (oapi : String → ApiResult)
    (pgContents : List PgEntry) (apiContents : List ApiEntry)
    (N : Int) (r : Nat)
    (hwfPg : ∀ pa es, opg pa = .ok es → ∀ e ∈ es,
      componentCount e.path ≤ componentCount pa + 1)
    (hwfApi : ∀ pa es, oapi pa = .success es → ∀ e ∈ es,
      componentCount e.path ≤ componentCount pa + 1)
    (hrootPg : ∀ e ∈ pgContents, componentCount e.path ≤ r + 1)
    (hrootApi : ∀ e ∈ apiContents, componentCount e.path ≤ r + 1) :
    build_structure_tree opg pgContents 0 0 = [] ∧
    build_structure_tree_api oapi apiContents 0 0 = [] ∧
    (∀ p ∈ allPathsList (build_structure_tree opg pgContents N 0),
      (componentCount p : Int) ≤ r + N) ∧
    (∀ p ∈ allPathsList (build_structure_tree_api oapi apiContents N 0),
      (componentCount p : Int) ≤ r + N) := by
  refine ⟨build_structure_tree_eq_nil _ _ le_rfl,
    build_structure_tree_api_eq_nil _ _ le_rfl, ?_, ?_⟩
  · intro p hp
    have := build_structure_tree_path_bound opg hwfPg (N - 0).toNat N 0 rfl
      pgContents (r + 1) hrootPg p hp
    push_cast at this ⊢
    omega
  · intro p hp
    have := build_structure_tree_api_path_bound oapi hwfApi (N - 0).toNat N 0
      rfl apiContents (r + 1) hrootApi p hp
    push_cast at this ⊢
    omega

/-- C1 witness: a concrete instantiation of `spec_C1`. -/
theorem spec_C1_witness :
    build_structure_tree (fun _ => PgResult.exn) [⟨"a", "file", "a", 1⟩] 0 0
        = [] ∧
    build_structure_tree_api (fun _ => ApiResult.exn)
        [⟨"a", "file", "a", some 1⟩] 0 0 = [] ∧
    (∀ p ∈ allPathsList (build_structure_tree (fun _ => PgResult.exn)
        [⟨"a", "file", "a", 1⟩] 2 0), (componentCount p : Int) ≤ 0 + 2) ∧
    (∀ p ∈ allPathsList (build_structure_tree_api (fun _ => ApiResult.exn)
        [⟨"a", "file", "a", some 1⟩] 2 0), (componentCount p : Int) ≤ 0 + 2) :=
  spec_C1 (fun _ => PgResult.exn) (fun _ => ApiResult.exn)
    [⟨"a", "file", "a", 1⟩] [⟨"a", "file", "a", some 1⟩] 2 0
    (by intro pa es h; cases h) (by intro pa es h; cases h)
    (by decide) (by decide)

/-- C10: for every `max_depth ≤ 0`, negative values included, both
builder variants return the empty sequence (the `current_depth >=
max_depth` guard fires on the first call) and no error is raised. -/
theorem spec_C10 (opg : String → PgResult) (oapi : String → ApiResult)
    (pgContents : List PgEntry) (apiContents : List ApiEntry)
    (max_depth : Int) (h : max_depth ≤ 0) :
    build_structure_tree opg pgContents max_depth 0 = [] ∧
    build_structure_tree_api oapi apiContents max_depth 0 = [] :=
  ⟨build_structure_tree_eq_nil _ _ h, build_structure_tree_api_eq_nil _ _ h⟩

/-- C2: when the depth guard admits the listing at all, both builder
variants emit one node per entry (so siblings of a failing directory are
all present and the call as a whole returns normally), and a directory
entry whose expansion was attempted but whose listing call failed (a
raised exception on the PyGithub path; a non-200 status or a raised
exception on the fallback path) gets an empty children sequence. -/
theorem spec_C2 (opg : String → PgResult) (oapi : String → ApiResult)
    (pgContents : List PgEntry) (apiContents : List ApiEntry)
    (max_depth current_depth : Int) (h : current_depth < max_depth) :
    (build_structure_tree opg pgContents max_depth current_depth).length
        = pgContents.length ∧
    (∀ e ∈ pgContents,
      ∃ node ∈ build_structure_tree opg pgContents max_depth current_depth,
        node.name = e.name ∧ node.path = e.path ∧ node.type = e.type ∧
        (e.type = "dir" → current_depth < max_depth - 1 →
          opg e.path = .exn → node.children = some [])) ∧
    (build_structure_tree_api oapi apiContents max_depth current_depth).length
        = apiContents.length ∧
    (∀ e ∈ apiContents,
      ∃ node ∈ build_structure_tree_api oapi apiContents max_depth
          current_depth,
        node.name = e.name ∧ node.path = e.path ∧ node.type = e.type ∧
        (e.type = "dir" → current_depth < max_depth - 1 →
          (∀ code, oapi e.path = .failure code → node.children = some []) ∧
          (oapi e.path = .exn → node.children = some []))) := by
  have hno : ¬ current_depth ≥ max_depth := not_le.mpr h
  refine ⟨?_, ?_, ?_, ?_⟩
  · rw [build_structure_tree, if_neg hno]
    exact List.length_map _ _
  · intro e he
    rw [build_structure_tree, if_neg hno]
    refine ⟨_, List.mem_map_of_mem _ he, ?_, ?_, ?_, ?_⟩
    · simp [TreeNode.name]
    · simp [TreeNode.path]
    · simp [TreeNode.type]
    · intro hdir hlt hexn
      simp [TreeNode.children, hdir, hlt, hexn]
  · rw [build_structure_tree_api, if_neg hno]
    exact List.length_map _ _
  · intro e he
    rw [build_structure_tree_api, if_neg hno]
    refine ⟨_, List.mem_map_of_mem _ he, ?_, ?_, ?_, ?_⟩
    · simp [TreeNode.name]
    · simp [TreeNode.path]
    · simp [TreeNode.type]
    · intro hdir hlt
      constructor
      · intro code hcode
        simp [TreeNode.children, hdir, hlt, hcode]
      · intro hexn
        simp [TreeNode.children, hdir, hlt, hexn]

/-- C2 witness: a failing directory next to a file sibling, on both
paths (`max_depth = 2`). -/
theorem spec_C2_witness :
    (build_structure_tree (fun _ => PgResult.exn)
        [⟨"bad", "dir", "bad", 0⟩, ⟨"a", "file", "a", 1⟩] 2 0).length = 2 ∧
    (∀ e ∈ ([⟨"bad", "dir", "bad", 0⟩, ⟨"a", "file", "a", 1⟩] :
        List PgEntry),
      ∃ node ∈ build_structure_tree (fun _ => PgResult.exn)
          [⟨"bad", "dir", "bad", 0⟩, ⟨"a", "file", "a", 1⟩] 2 0,
        node.name = e.name ∧ node.path = e.path ∧ node.type = e.type ∧
        (e.type = "dir" → (0 : Int) < 2 - 1 →
          (fun _ => PgResult.exn) e.path = .exn →
          node.children = some [])) ∧
    (build_structure_tree_api (fun _ => ApiResult.failure 404)
        [⟨"bad", "dir", "bad", none⟩, ⟨"a", "file", "a", some 1⟩]
        2 0).length = 2 ∧
    (∀ e ∈ ([⟨"bad", "dir", "bad", none⟩, ⟨"a", "file", "a", some 1⟩] :
        List ApiEntry),
      ∃ node ∈ build_structure_tree_api (fun _ => ApiResult.failure 404)
          [⟨"bad", "dir", "bad", none⟩, ⟨"a", "file", "a", some 1⟩] 2 0,
        node.name = e.name ∧ node.path = e.path ∧ node.type = e.type ∧
        (e.type = "dir" → (0 : Int) < 2 - 1 →
          (∀ code, (fun _ => ApiResult.failure 404) e.path = .failure code →
            node.children = some []) ∧
          ((fun _ => ApiResult.failure 404) e.path = .exn →
            node.children = some []))) :=
  spec_C2 (fun _ => PgResult.exn) (fun _ => ApiResult.failure 404)
    [⟨"bad", "dir", "bad", 0⟩, ⟨"a", "file", "a", 1⟩]
    [⟨"bad", "dir", "bad", none⟩, ⟨"a", "file", "a", some 1⟩]
    2 0 (by decide)

/-- C6 counterexample: with `max_depth = 1` a directory entry sits at
depth `0 = max_depth - 1`, so the depth bound stops its expansion; the
emitted node has an absent `children` field (`none`), not an empty
children sequence (`some []`), on both paths. -/
theorem spec_C6_counterexample :
    build_structure_tree (fun _ => PgResult.ok [])
        [⟨"sub", "dir", "sub", 0⟩] 1 0
      = [TreeNode.mk "sub" "dir" "sub" none none] ∧
    build_structure_tree_api (fun _ => ApiResult.success [])
        [⟨"sub", "dir", "sub", none⟩] 1 0
      = [TreeNode.mk "sub" "dir" "sub" none none] ∧
    (TreeNode.mk "sub" "dir" "sub" none none).children ≠
      some ([] : List TreeNode) := by
  refine ⟨?_, ?_, by simp [TreeNode.children]⟩
  · rw [build_structure_tree]
    norm_num
    decide
  · rw [build_structure_tree_api]
    norm_num

/-- C6 amended: a directory entry the depth bound prevents from being
expanded (depth not strictly below `max_depth - 1`, while still below
`max_depth` so the entry is listed at all) is emitted with an absent
`children` field, on both builder variants. -/
theorem spec_C6_amended (opg : String → PgResult) (oapi : String → ApiResult)
    (pgContents : List PgEntry) (apiContents : List ApiEntry)
    (max_depth current_depth : Int) (h1 : current_depth < max_depth)
    (h2 : ¬ current_depth < max_depth - 1) :
    (∀ e ∈ pgContents,
      ∃ node ∈ build_structure_tree opg pgContents max_depth current_depth,
        node.name = e.name ∧ node.path = e.path ∧ node.children = none) ∧
    (∀ e ∈ apiContents,
      ∃ node ∈ build_structure_tree_api oapi apiContents max_depth
          current_depth,
        node.name = e.name ∧ node.path = e.path ∧ node.children = none) := by
  have hno : ¬ current_depth ≥ max_depth := not_le.mpr h1
  constructor
  · intro e he
    rw [build_structure_tree, if_neg hno]
    refine ⟨_, List.mem_map_of_mem _ he, ?_, ?_, ?_⟩
    · simp [TreeNode.name]
    · simp [TreeNode.path]
    · simp [TreeNode.children, h2]
  · intro e he
    rw [build_structure_tree_api, if_neg hno]
    refine ⟨_, List.mem_map_of_mem _ he, ?_, ?_, ?_⟩
    · simp [TreeNode.name]
    · simp [TreeNode.path]
    · simp [TreeNode.children, h2]

/-- C6 amended witness: `max_depth = 1`, directory at depth 0. -/
theorem spec_C6_amended_witness :
    (∀ e ∈ ([⟨"sub", "dir", "sub", 0⟩] : List PgEntry),
      ∃ node ∈ build_structure_tree (fun _ => PgResult.ok [])
          [⟨"sub", "dir", "sub", 0⟩] 1 0,
        node.name = e.name ∧ node.path = e.path ∧ node.children = none) ∧
    (∀ e ∈ ([⟨"sub", "dir", "sub", none⟩] : List ApiEntry),
      ∃ node ∈ build_structure_tree_api (fun _ => ApiResult.success [])
          [⟨"sub", "dir", "sub", none⟩] 1 0,
        node.name = e.name ∧ node.path = e.path ∧ node.children = none) :=
  spec_C6_amended (fun _ => PgResult.ok []) (fun _ => ApiResult.success [])
    [⟨"sub", "dir", "sub", 0⟩] [⟨"sub", "dir", "sub", none⟩] 1 0
    (by decide) (by decide)

/-- C10 witness: `max_depth = -5` on nonempty listings. -/
theorem spec_C10_witness :
    build_structure_tree (fun _ => PgResult.ok []) [⟨"a", "file", "a", 1⟩]
        (-5) 0 = [] ∧
    build_structure_tree_api (fun _ => ApiResult.success [])
        [⟨"a", "file", "a", some 1⟩] (-5) 0 = [] :=
  spec_C10 (fun _ => PgResult.ok []) (fun _ => ApiResult.success [])
    [⟨"a", "file", "a", 1⟩] [⟨"a", "file", "a", some 1⟩] (-5) (by decide)

/-- Python `s.strip()` on a character list: drop leading and trailing
whitespace. -/
def pyStripWs (s : List Char) : List Char :=
  ((s.dropWhile Char.isWhitespace).reverse.dropWhile Char.isWhitespace).reverse

/-- Python `s[:500] + "..." if len(s) > 500 else s` (`len` and slicing
count code points, as `String.length` and `List.take` on `data` do). -/
def truncate500 (s : String) : String :=
  if s.length > 500 then String.mk (s.data.take 500) ++ "..." else s

/-- The summary record `_parse_dependency_file` returns for one manifest
file. -/
inductive DepSummary where
  | packageJson (dependencies devDependencies scripts :
      List (String × String))
  | requirements (lines : List String)
  | content (text : String)
  | error (msg : String)
  deriving DecidableEq, Repr

/-- Abstraction of a parsed `package.json` object restricted to the
three keys the code projects with `data.get(key, \x7b\x7d)`; a key maps
to `none` when absent.  `json.loads` itself is modelled as a parameter
`jsonLoads` returning `none` when it raises (invalid JSON, or a
non-object document on which the subsequent `.get` calls would raise). -/
structure JsonObject where
  dependencies : Option (List (String × String))
  devDependencies : Option (List (String × String))
  scripts : Option (List (String × String))

/-- `_parse_dependency_file(file_name, content)`.  The body's
`try/except` only ever catches a failure of `json.loads` (the
`requirements.txt` branch and the raw-text branches cannot raise), which
degrades to the diagnostic record `\x7b"error": f"Could not parse
\x7bfile_name\x7d"\x7d`. -/
def parse_dependency_file (jsonLoads : String → Option JsonObject)
    (file_name content : String) : DepSummary :=
  if file_name = "package.json" then
    match jsonLoads content with
    | some data =>
        .packageJson (data.dependencies.getD []) (data.devDependencies.getD [])
          (data.scripts.getD [])
    | none => .error ("Could not parse " ++ file_name)
  else if file_name = "requirements.txt" then
    .requirements
      (((pySplit '\n' content.data).filter
          (fun line =>
            !(pyStripWs line).isEmpty && !(List.isPrefixOf ['#'] line))).map
        (fun line => String.mk (pyStripWs line)))
  else if file_name = "pyproject.toml" ∨ file_name = "Cargo.toml" then
    .content (truncate500 content)
  else
    .content (truncate500 content)

/-- The fixed manifest catalog `dependency_files`. -/
def dependency_files : List String :=
  ["package.json", "requirements.txt", "Pipfile", "pyproject.toml",
   "Gemfile", "composer.json", "pom.xml", "build.gradle", "Cargo.toml",
   "go.mod"]

/-- Outcome of the authenticated manifest fetch of one filename:
`repo_obj.get_contents(file_name)` either raises a `GithubException`
(`ghExn`, which covers not-found and any other service error) or hands
back a content object whose `decoded_content.decode("utf-8")` yields
text (`raw (some s)`) or raises a decode error (`raw none`) that is not
a `GithubException`. -/
inductive PgFetch where
  | ghExn
  | raw (decoded : Option String)
  deriving DecidableEq, Repr

/-- Outcome of the fallback manifest fetch of one filename: `ok s` is a
200 response whose body decoded to text, `status c` a response with
non-200 status `c`, `exn` a raised exception (network, JSON, Base64 or
text decoding). -/
inductive ApiFetch where
  | ok (content : String)
  | status (code : Nat)
  | exn
  deriving DecidableEq, Repr

/-- The authenticated loop of `analyze_repo_dependencies`: only
`GithubException` is caught and skipped (`continue`); a decode failure
is not caught there, escapes the loop, and the outer handler logs and
re-raises it (`Except.error`).  Insertion into the `dependencies` dict
is modelled as an ordered association list. -/
def analyze_repo_dependencies_pg_loop (jsonLoads : String → Option JsonObject)
    (fetch : String → PgFetch) :
    List String → Except Unit (List (String × DepSummary))
  | [] => .ok []
  | f :: fs =>
    match fetch f with
    | .ghExn => analyze_repo_dependencies_pg_loop jsonLoads fetch fs
    | .raw none => .error ()
    | .raw (some content) =>
        (analyze_repo_dependencies_pg_loop jsonLoads fetch fs).map
          (fun rest => (f, parse_dependency_file jsonLoads f content) :: rest)

/-- `analyze_repo_dependencies` on the authenticated path. -/
def analyze_repo_dependencies_pg (jsonLoads : String → Option JsonObject)
    (fetch : String → PgFetch) : Except Unit (List (String × DepSummary)) :=
  analyze_repo_dependencies_pg_loop jsonLoads fetch dependency_files

/-- The fallback loop of `analyze_repo_dependencies`: a non-200 status
falls through silently (there is no else branch), and every exception is
caught and skipped; nothing aborts the scan. -/
def analyze_repo_dependencies_api_loop (jsonLoads : String → Option JsonObject)
    (fetch : String → ApiFetch) :
    List String → List (String × DepSummary)
  | [] => []
  | f :: fs =>
    match fetch f with
    | .ok content =>
        (f, parse_dependency_file jsonLoads f content) ::
          analyze_repo_dependencies_api_loop jsonLoads fetch fs
    | .status _ => analyze_repo_dependencies_api_loop jsonLoads fetch fs
    | .exn => analyze_repo_dependencies_api_loop jsonLoads fetch fs

/-- `analyze_repo_dependencies` on the fallback path. -/
def analyze_repo_dependencies_api (jsonLoads : String → Option JsonObject)
    (fetch : String → ApiFetch) : List (String × DepSummary) :=
  analyze_repo_dependencies_api_loop jsonLoads fetch dependency_files

theorem api_loop_mem {jsonLoads : String → Option JsonObject}
    {fetch : String → ApiFetch} :
    ∀ {fs : List String} {f : String} {r : DepSummary},
      (f, r) ∈ analyze_repo_dependencies_api_loop jsonLoads fetch fs →
      f ∈ fs ∧ ∃ c, fetch f = .ok c ∧
        r = parse_dependency_file jsonLoads f c := by
  intro fs
  induction fs with
  | nil => intro f r h; simp [analyze_repo_dependencies_api_loop] at h
  | cons g gs ih =>
    intro f r h
    rw [analyze_repo_dependencies_api_loop] at h
    rcases hg : fetch g with c | code | _ <;> rw [hg] at h
    · rcases List.mem_cons.mp h with heq | hmem
      · rw [Prod.mk.injEq] at heq
        obtain ⟨rfl, rfl⟩ := heq
        exact ⟨List.mem_cons_self _ _, c, hg, rfl⟩
      · obtain ⟨hfs, hc⟩ := ih hmem
        exact ⟨List.mem_cons_of_mem _ hfs, hc⟩
    · obtain ⟨hfs, hc⟩ := ih h
      exact ⟨List.mem_cons_of_mem _ hfs, hc⟩
    · obtain ⟨hfs, hc⟩ := ih h
      exact ⟨List.mem_cons_of_mem _ hfs, hc⟩

theorem api_loop_mem_of {jsonLoads : String → Option JsonObject}
    {fetch : String → ApiFetch} :
    ∀ {fs : List String} {f : String}, f ∈ fs → ∀ {c}, fetch f = .ok c →
      (f, parse_dependency_file jsonLoads f c) ∈
        analyze_repo_dependencies_api_loop jsonLoads fetch fs := by
  intro fs
  induction fs with
  | nil => intro f h; simp at h
  | cons g gs ih =>
    intro f hf c hc
    rw [analyze_repo_dependencies_api_loop]
    rcases List.mem_cons.mp hf with rfl | hmem
    · rw [hc]
      exact List.mem_cons_self _ _
    · rcases hg : fetch g with c' | code | _
      · exact List.mem_cons_of_mem _ (ih hmem hc)
      · exact ih hmem hc
      · exact ih hmem hc

theorem pg_loop_ok {jsonLoads : String → Option JsonObject}
    {fetch : String → PgFetch} :
    ∀ {fs : List String}, (∀ f ∈ fs, fetch f ≠ .raw none) →
      ∃ l, analyze_repo_dependencies_pg_loop jsonLoads fetch fs = .ok l ∧
        (∀ f r, (f, r) ∈ l → f ∈ fs ∧ ∃ c, fetch f = .raw (some c) ∧
          r = parse_dependency_file jsonLoads f c) ∧
        (∀ f ∈ fs, ∀ c, fetch f = .raw (some c) →
          (f, parse_dependency_file jsonLoads f c) ∈ l) := by
  intro fs
  induction fs with
  | nil =>
    intro _
    exact ⟨[], rfl, by simp, by simp⟩
  | cons g gs ih =>
    intro hno
    obtain ⟨l, hl, hmem, hof⟩ :=
      ih (fun f hf => hno f (List.mem_cons_of_mem _ hf))
    rcases hg : fetch g with _ | d
    · refine ⟨l, ?_, ?_, ?_⟩
      · rw [analyze_repo_dependencies_pg_loop, hg, hl]
      · intro f r hfr
        obtain ⟨hfs, hc⟩ := hmem f r hfr
        exact ⟨List.mem_cons_of_mem _ hfs, hc⟩
      · intro f hf c hc
        rcases List.mem_cons.mp hf with rfl | hfgs
        · rw [hg] at hc
          cases hc
        · exact hof f hfgs c hc
    · cases d with
      | none =>
        exact absurd hg (hno g (List.mem_cons_self _ _))
      | some c0 =>
        refine ⟨(g, parse_dependency_file jsonLoads g c0) :: l, ?_, ?_, ?_⟩
        · rw [analyze_repo_dependencies_pg_loop, hg, hl]
          rfl
        · intro f r hfr
          rcases List.mem_cons.mp hfr with heq | hfl
          · rw [Prod.mk.injEq] at heq
            obtain ⟨rfl, rfl⟩ := heq
            exact ⟨List.mem_cons_self _ _, c0, hg, rfl⟩
          · obtain ⟨hfs, hc⟩ := hmem f r hfl
            exact ⟨List.mem_cons_of_mem _ hfs, hc⟩
        · intro f hf c hc
          rcases List.mem_cons.mp hf with rfl | hfgs
          · rw [hg] at hc
            rw [PgFetch.raw.injEq, Option.some.injEq] at hc
            rw [hc]
            exact List.mem_cons_self _ _
          · exact List.mem_cons_of_mem _ (hof f hfgs c hc)

/-- C3 counterexample: on the authenticated path a manifest whose
content cannot be decoded (a failure that is not a `GithubException`)
aborts the whole scan — `analyze_repo_dependencies` re-raises instead of
skipping the file, refuting the claim that on either access path a
fetch-or-decode failure of any kind is silently skipped. -/
theorem spec_C3_counterexample :
    analyze_repo_dependencies_pg (fun _ => none)
      (fun f => if f = "requirements.txt" then .raw none else .ghExn)
      = .error () := by
  rfl

/-- C3 amended: not-found and every other fetch failure is silently
skipped and omitted from the mapping on the fallback path, and
`GithubException`-type failures (not-found included) are silently
skipped and omitted on the authenticated path, where the scan completes
whenever no manifest fails to decode; a decode failure on the
authenticated path aborts the scan (see the counterexample). -/
theorem spec_C3_amended (jsonLoads : String → Option JsonObject)
    (fpg : String → PgFetch) (fapi : String → ApiFetch) :
    (∀ f r, (f, r) ∈ analyze_repo_dependencies_api jsonLoads fapi →
      f ∈ dependency_files ∧ ∃ c, fapi f = .ok c ∧
        r = parse_dependency_file jsonLoads f c) ∧
    (∀ f ∈ dependency_files, ∀ c, fapi f = .ok c →
      (f, parse_dependency_file jsonLoads f c) ∈
        analyze_repo_dependencies_api jsonLoads fapi) ∧
    ((∀ f ∈ dependency_files, fpg f ≠ .raw none) →
      ∃ l, analyze_repo_dependencies_pg jsonLoads fpg = .ok l ∧
        (∀ f r, (f, r) ∈ l → f ∈ dependency_files ∧
          ∃ c, fpg f = .raw (some c) ∧
            r = parse_dependency_file jsonLoads f c) ∧
        (∀ f ∈ dependency_files, ∀ c, fpg f = .raw (some c) →
          (f, parse_dependency_file jsonLoads f c) ∈ l)) := by
  refine ⟨?_, ?_, ?_⟩
  · intro f r h
    exact api_loop_mem h
  · intro f hf c hc
    exact api_loop_mem_of hf hc
  · intro hno
    exact pg_loop_ok hno

/-- C3 amended witness: authenticated scan with one readable manifest
and every other filename raising `GithubException`. -/
theorem spec_C3_amended_witness :
    ∃ l, analyze_repo_dependencies_pg (fun _ => none)
        (fun f => if f = "Gemfile" then .raw (some "gem flask") else .ghExn)
        = .ok l ∧
      (∀ f r, (f, r) ∈ l → f ∈ dependency_files ∧
        ∃ c, (if f = "Gemfile" then PgFetch.raw (some "gem flask")
            else PgFetch.ghExn) = .raw (some c) ∧
          r = parse_dependency_file (fun _ => none) f c) ∧
      (∀ f ∈ dependency_files, ∀ c,
        (if f = "Gemfile" then PgFetch.raw (some "gem flask")
            else PgFetch.ghExn) = .raw (some c) →
        (f, parse_dependency_file (fun _ => none) f c) ∈ l) :=
  (spec_C3_amended (fun _ => none)
    (fun f => if f = "Gemfile" then .raw (some "gem flask") else .ghExn)
    (fun _ => .status 404)).2.2 (by decide)

/-- C4 counterexample: kept requirirement lines are returned stripped of
surrounding whitespace, not verbatim: for the content " flask\n" the
parser returns ["flask"], not [" flask"]. -/
theorem spec_C4_counterexample :
    parse_dependency_file (fun _ => none) "requirements.txt" " flask\n"
      = .requirements ["flask"] ∧
    parse_dependency_file (fun _ => none) "requirements.txt" " flask\n"
      ≠ .requirements [" flask"] :=
  ⟨rfl, by decide⟩

/-- C4 amended: the requirements.txt summarizer splits the content into
lines, keeps exactly the lines that are nonempty after stripping and do
not start with '#' (tested on the unstripped line), in their original
order, and returns each kept line stripped of surrounding whitespace
(not verbatim); the claim's concrete example holds. -/
theorem spec_C4_amended (jsonLoads : String → Option JsonObject)
    (content : String) :
    (∃ kept : List (List Char),
      kept.Sublist (pySplit '\n' content.data) ∧
      (∀ line ∈ kept, (pyStripWs line).isEmpty = false ∧
        List.isPrefixOf ['#'] line = false) ∧
      (∀ line ∈ pySplit '\n' content.data,
        (pyStripWs line).isEmpty = false →
        List.isPrefixOf ['#'] line = false → line ∈ kept) ∧
      parse_dependency_file jsonLoads "requirements.txt" content
        = .requirements (kept.map (fun line => String.mk (pyStripWs line)))) ∧
    parse_dependency_file jsonLoads "requirements.txt"
        "flask==2.0\n# comment\n\nrequests\n"
      = .requirements ["flask==2.0", "requests"] ∧
    analyze_repo_dependencies_api jsonLoads
        (fun f => if f = "requirements.txt"
          then .ok "flask==2.0\n# comment\n\nrequests\n" else .status 404)
      = [("requirements.txt", .requirements ["flask==2.0", "requests"])] := by
  refine ⟨⟨(pySplit '\n' content.data).filter
      (fun line =>
        !(pyStripWs line).isEmpty && !(List.isPrefixOf ['#'] line)),
      List.filter_sublist _, ?_, ?_, rfl⟩, rfl, rfl⟩
  · intro line hline
    rw [List.mem_filter] at hline
    obtain ⟨-, hp⟩ := hline
    rw [Bool.and_eq_true, Bool.not_eq_true', Bool.not_eq_true'] at hp
    exact hp
  · intro line hline h1 h2
    rw [List.mem_filter]
    refine ⟨hline, ?_⟩
    rw [h1, h2]
    rfl

/-- C4 amended witness: the concrete example from the claim. -/
theorem spec_C4_amended_witness :
    parse_dependency_file (fun _ => none) "requirements.txt"
        "flask==2.0\n# comment\n\nrequests\n"
      = .requirements ["flask==2.0", "requests"] :=
  (spec_C4_amended (fun _ => none) "x").2.1

/-- C9 counterexample: the diagnostic record's message is capitalized —
"Could not parse package.json" — and is not the claimed lowercase
"could not parse package.json". -/
theorem spec_C9_counterexample :
    parse_dependency_file (fun _ => none) "package.json" "not json"
      = .error "Could not parse package.json" ∧
    parse_dependency_file (fun _ => none) "package.json" "not json"
      ≠ .error "could not parse package.json" :=
  ⟨rfl, by decide⟩

/-- C9 amended: a parse failure of a format with a dedicated parser
yields the record with message "Could not parse <filename>" (capital C)
instead of raising, the aggregator records it in the mapping and
continues, and the requirements.txt parser can never produce an error
record at all. -/
theorem spec_C9_amended (jsonLoads : String → Option JsonObject)
    (content : String) (fetch : String → ApiFetch)
    (hparse : jsonLoads content = none)
    (hfetch : fetch "package.json" = .ok content) :
    parse_dependency_file jsonLoads "package.json" content
      = .error "Could not parse package.json" ∧
    ("package.json", DepSummary.error "Could not parse package.json")
      ∈ analyze_repo_dependencies_api jsonLoads fetch ∧
    (∀ c msg, parse_dependency_file jsonLoads "requirements.txt" c
      ≠ .error msg) := by
  have h1 : parse_dependency_file jsonLoads "package.json" content
      = .error "Could not parse package.json" := by
    unfold parse_dependency_file
    rw [if_pos rfl, hparse]
    rfl
  refine ⟨h1, ?_, ?_⟩
  · have h2 : analyze_repo_dependencies_api jsonLoads fetch
        = ("package.json",
            parse_dependency_file jsonLoads "package.json" content)
          :: analyze_repo_dependencies_api_loop jsonLoads fetch
            ["requirements.txt", "Pipfile", "pyproject.toml", "Gemfile",
             "composer.json", "pom.xml", "build.gradle", "Cargo.toml",
             "go.mod"] := by
      rw [analyze_repo_dependencies_api, dependency_files,
        analyze_repo_dependencies_api_loop, hfetch]
    rw [h2, h1]
    exact List.mem_cons_self _ _
  · intro c msg h
    unfold parse_dependency_file at h
    rw [if_neg (by decide), if_pos rfl] at h
    cases h

/-- C9 amended witness: concrete unparseable package.json content. -/
theorem spec_C9_amended_witness :
    parse_dependency_file (fun _ => none) "package.json" "not json"
      = .error "Could not parse package.json" ∧
    ("package.json", DepSummary.error "Could not parse package.json")
      ∈ analyze_repo_dependencies_api (fun _ => none)
        (fun f => if f = "package.json" then .ok "not json" else .exn) ∧
    (∀ c msg,
      parse_dependency_file (fun _ => none) "requirements.txt" c
        ≠ .error msg) :=
  spec_C9_amended (fun _ => none) "not json"
    (fun f => if f = "package.json" then .ok "not json" else .exn)
    rfl rfl

/-- The flat metadata dict `get_repository_metadata` builds: sixteen
projected fields. -/
structure RepositoryMetadata where
  name : String
  full_name : String
  description : Option String
  language : Option String
  stars : Int
  forks : Int
  open_issues : Int
  created_at : String
  updated_at : String
  size : Int
  default_branch : String
  topics : List String
  license : Option String
  homepage : Option String
  clone_url : String
  ssh_url : String
  deriving DecidableEq, Repr

/-- A license object; only its `name` attribute / key is ever read. -/
structure LicenseObj where
  name : String
  deriving DecidableEq, Repr

/-- The PyGithub repository object restricted to the attributes
`get_repository_metadata` reads: `created_at_iso` / `updated_at_iso`
stand for the strings `repo_obj.created_at.isoformat()` /
`repo_obj.updated_at.isoformat()` evaluate to, `topics` for
`repo_obj.get_topics()`, `license` for `repo_obj.license` (absent →
`none`). -/
structure AuthRepo where
  name : String
  full_name : String
  description : Option String
  language : Option String
  stargazers_count : Int
  forks_count : Int
  open_issues_count : Int
  created_at_iso : String
  updated_at_iso : String
  size : Int
  default_branch : String
  topics : List String
  license : Option LicenseObj
  homepage : Option String
  clone_url : String
  ssh_url : String
  deriving DecidableEq, Repr

/-- The fallback path's `response.json()` record restricted to the keys
read: `topics` is read with `data.get("topics", [])` so the key may be
absent (`none`), `license` with `data.get("license")` where JSON null is
`none`. -/
structure RawRepoJson where
  name : String
  full_name : String
  description : Option String
  language : Option String
  stargazers_count : Int
  forks_count : Int
  open_issues_count : Int
  created_at : String
  updated_at : String
  size : Int
  default_branch : String
  topics : Option (List String)
  license : Option LicenseObj
  homepage : Option String
  clone_url : String
  ssh_url : String
  deriving DecidableEq, Repr

/-- `get_repository_metadata`: the `if self.github_client` branch
projects the client object, the `else` branch projects the raw JSON
record.  The surrounding fetch calls and their error propagation are
outside this pure projection. -/
def get_repository_metadata (github_client : Option AuthRepo)
    (data : RawRepoJson) : RepositoryMetadata :=
  match github_client with
  | some repo_obj =>
      { name := repo_obj.name
        full_name := repo_obj.full_name
        description := repo_obj.description
        language := repo_obj.language
        stars := repo_obj.stargazers_count
        forks := repo_obj.forks_count
        open_issues := repo_obj.open_issues_count
        created_at := repo_obj.created_at_iso
        updated_at := repo_obj.updated_at_iso
        size := repo_obj.size
        default_branch := repo_obj.default_branch
        topics := repo_obj.topics
        license :=
          match repo_obj.license with
          | some l => some l.name
          | none => none
        homepage := repo_obj.homepage
        clone_url := repo_obj.clone_url
        ssh_url := repo_obj.ssh_url }
  | none =>
      { name := data.name
        full_name := data.full_name
        description := data.description
        language := data.language
        stars := data.stargazers_count
        forks := data.forks_count
        open_issues := data.open_issues_count
        created_at := data.created_at
        updated_at := data.updated_at
        size := data.size
        default_branch := data.default_branch
        topics := data.topics.getD []
        license :=
          match data.license with
          | some l => some l.name
          | none => none
        homepage := data.homepage
        clone_url := data.clone_url
        ssh_url := data.ssh_url }

/-- Modelled from the spec: "given equivalent underlying data" — the
authenticated client object and the fallback JSON record describe the
same repository state at every access point the projection reads; the
timestamp access points are compared as the strings the two reads
produce (the `isoformat()` output on one side, the raw JSON string on
the other). -/
def EquivalentUnderlying (a : AuthRepo) (j : RawRepoJson) : Prop :=
  a.name = j.name ∧ a.full_name = j.full_name ∧
  a.description = j.description ∧ a.language = j.language ∧
  a.stargazers_count = j.stargazers_count ∧
  a.forks_count = j.forks_count ∧
  a.open_issues_count = j.open_issues_count ∧
  a.created_at_iso = j.created_at ∧ a.updated_at_iso = j.updated_at ∧
  a.size = j.size ∧ a.default_branch = j.default_branch ∧
  a.topics = j.topics.getD [] ∧ a.license = j.license ∧
  a.homepage = j.homepage ∧ a.clone_url = j.clone_url ∧
  a.ssh_url = j.ssh_url

/-- C5: on equivalent underlying data the authenticated projection and
the fallback projection produce field-for-field identical
RepositoryMetadata records (all sixteen fields, the two timestamp
strings included). -/
theorem spec_C5 (a : AuthRepo) (j : RawRepoJson)
    (h : EquivalentUnderlying a j) :
    get_repository_metadata (some a) j = get_repository_metadata none j := by
  obtain ⟨h1, h2, h3, h4, h5, h6, h7, h8, h9, h10, h11, h12, h13, h14,
    h15, h16⟩ := h
  simp only [get_repository_metadata, RepositoryMetadata.mk.injEq]
  rw [h12, h13]
  exact ⟨h1, h2, h3, h4, h5, h6, h7, h8, h9, h10, h11, rfl, rfl, h14,
    h15, h16⟩

/-- C5 witness: a concrete repository state seen through both paths. -/
theorem spec_C5_witness :
    get_repository_metadata
      (some ⟨"repo", "owner/repo", some "d", none, 7, 2, 1,
        "2020-01-01T00:00:00+00:00", "2021-02-03T04:05:06+00:00", 42,
        "main", ["mcp", "github"], some ⟨"MIT License"⟩, none,
        "https://github.com/owner/repo.git", "git@github.com:owner/repo.git"⟩)
      ⟨"repo", "owner/repo", some "d", none, 7, 2, 1,
        "2020-01-01T00:00:00+00:00", "2021-02-03T04:05:06+00:00", 42,
        "main", some ["mcp", "github"], some ⟨"MIT License"⟩, none,
        "https://github.com/owner/repo.git", "git@github.com:owner/repo.git"⟩
    = get_repository_metadata none
      ⟨"repo", "owner/repo", some "d", none, 7, 2, 1,
        "2020-01-01T00:00:00+00:00", "2021-02-03T04:05:06+00:00", 42,
        "main", some ["mcp", "github"], some ⟨"MIT License"⟩, none,
        "https://github.com/owner/repo.git", "git@github.com:owner/repo.git"⟩ :=
  spec_C5 _ _ ⟨rfl, rfl, rfl, rfl, rfl, rfl, rfl, rfl, rfl, rfl, rfl, rfl,
    rfl, rfl, rfl, rfl⟩

/-- The combined record `get_repo_info` assembles. -/
structure RepoInfo where
  repository_url : String
  metadata : RepositoryMetadata
  readme_preview : String
  structure_summary : List TreeNode

/-- `get_repo_info(repo_url)` after its three sub-fetches returned
`metadata`, `readme` and the top-level `structure_list`:
`readme[:500] + "..." if len(readme) > 500 else readme` and
`json.loads(structure)[:10]` (Python slices count code points, as
`List.take` on `String.data` does). -/
def get_repo_info (repo_url : String) (metadata : RepositoryMetadata)
    (readme : String) (structure_list : List TreeNode) : RepoInfo :=
  { repository_url := repo_url
    metadata := metadata
    readme_preview :=
      if readme.length > 500 then String.mk (readme.data.take 500) ++ "..."
      else readme
    structure_summary := structure_list.take 10 }

/-- C8: the readme preview is the document unchanged when its length is
at most 500 and its first 500 characters followed by "..." (length 503)
otherwise, and the structure summary is exactly the first 10 entries of
the top-level tree in order (a prefix of it); in particular a
600-character document maps to 503 characters and a 15-entry tree to
its first 10 entries. -/
theorem spec_C8 (repo_url : String) (metadata : RepositoryMetadata)
    (readme : String) (structure_list : List TreeNode) :
    (readme.length ≤ 500 →
      (get_repo_info repo_url metadata readme structure_list).readme_preview
        = readme) ∧
    (readme.length > 500 →
      (get_repo_info repo_url metadata readme
          structure_list).readme_preview.data
        = readme.data.take 500 ++ ['.', '.', '.'] ∧
      (get_repo_info repo_url metadata readme
          structure_list).readme_preview.length = 503) ∧
    (get_repo_info repo_url metadata readme
        structure_list).structure_summary.length
      = min 10 structure_list.length ∧
    List.IsPrefix
      (get_repo_info repo_url metadata readme
        structure_list).structure_summary structure_list ∧
    (readme.length = 600 →
      (get_repo_info repo_url metadata readme
          structure_list).readme_preview.length = 503) ∧
    (structure_list.length = 15 →
      (get_repo_info repo_url metadata readme
          structure_list).structure_summary.length = 10) := by
  have hbig : readme.length > 500 →
      (get_repo_info repo_url metadata readme
          structure_list).readme_preview.data
        = readme.data.take 500 ++ ['.', '.', '.'] ∧
      (get_repo_info repo_url metadata readme
          structure_list).readme_preview.length = 503 := by
    intro h
    have hd : (get_repo_info repo_url metadata readme
        structure_list).readme_preview.data
        = readme.data.take 500 ++ ['.', '.', '.'] := by
      simp [get_repo_info, if_pos h, String.data_append]
    constructor
    · exact hd
    · have hlen : readme.data.length = readme.length := String.length_data _
      rw [← String.length_data, hd, List.length_append, List.length_take]
      have h3 : (['.', '.', '.'] : List Char).length = 3 := rfl
      omega
  refine ⟨?_, hbig, ?_, ?_, ?_, ?_⟩
  · intro h
    simp [get_repo_info, Nat.not_lt.mpr h]
  · simp [get_repo_info, List.length_take]
  · simp only [get_repo_info]
    exact List.take_prefix _ _
  · intro h
    exact (hbig (by omega)).2
  · intro h
    simp [get_repo_info, List.length_take, h]

/-- C8 witness: a 600-character document and a 15-entry tree. -/
theorem spec_C8_witness :
    ((String.mk (List.replicate 600 'a')).length ≤ 500 →
      (get_repo_info "u" (get_repository_metadata none
          ⟨"r", "o/r", none, none, 0, 0, 0, "t", "t", 0, "m", none, none,
            none, "c", "s"⟩)
        (String.mk (List.replicate 600 'a'))
        (List.replicate 15 (TreeNode.mk "f" "file" "f" none
          none))).readme_preview
        = String.mk (List.replicate 600 'a')) ∧
    ((String.mk (List.replicate 600 'a')).length > 500 →
      (get_repo_info "u" (get_repository_metadata none
          ⟨"r", "o/r", none, none, 0, 0, 0, "t", "t", 0, "m", none, none,
            none, "c", "s"⟩)
        (String.mk (List.replicate 600 'a'))
        (List.replicate 15 (TreeNode.mk "f" "file" "f" none
          none))).readme_preview.data
        = (String.mk (List.replicate 600 'a')).data.take 500
            ++ ['.', '.', '.'] ∧
      (get_repo_info "u" (get_repository_metadata none
          ⟨"r", "o/r", none, none, 0, 0, 0, "t", "t", 0, "m", none, none,
            none, "c", "s"⟩)
        (String.mk (List.replicate 600 'a'))
        (List.replicate 15 (TreeNode.mk "f" "file" "f" none
          none))).readme_preview.length = 503) ∧
    (get_repo_info "u" (get_repository_metadata none
          ⟨"r", "o/r", none, none, 0, 0, 0, "t", "t", 0, "m", none, none,
            none, "c", "s"⟩)
        (String.mk (List.replicate 600 'a'))
        (List.replicate 15 (TreeNode.mk "f" "file" "f" none
          none))).structure_summary.length
      = min 10 (List.replicate 15 (TreeNode.mk "f" "file" "f" none
          none)).length ∧
    List.IsPrefix
      (get_repo_info "u" (get_repository_metadata none
          ⟨"r", "o/r", none, none, 0, 0, 0, "t", "t", 0, "m", none, none,
            none, "c", "s"⟩)
        (String.mk (List.replicate 600 'a'))
        (List.replicate 15 (TreeNode.mk "f" "file" "f" none
          none))).structure_summary
      (List.replicate 15 (TreeNode.mk "f" "file" "f" none none)) ∧
    ((String.mk (List.replicate 600 'a')).length = 600 →
      (get_repo_info "u" (get_repository_metadata none
          ⟨"r", "o/r", none, none, 0, 0, 0, "t", "t", 0, "m", none, none,
            none, "c", "s"⟩)
        (String.mk (List.replicate 600 'a'))
        (List.replicate 15 (TreeNode.mk "f" "file" "f" none
          none))).readme_preview.length = 503) ∧
    ((List.replicate 15 (TreeNode.mk "f" "file" "f" none none)).length = 15 →
      (get_repo_info "u" (get_repository_metadata none
          ⟨"r", "o/r", none, none, 0, 0, 0, "t", "t", 0, "m", none, none,
            none, "c", "s"⟩)
        (String.mk (List.replicate 600 'a'))
        (List.replicate 15 (TreeNode.mk "f" "file" "f" none
          none))).structure_summary.length = 10) :=
  spec_C8 "u" (get_repository_metadata none
      ⟨"r", "o/r", none, none, 0, 0, 0, "t", "t", 0, "m", none, none,
        none, "c", "s"⟩)
    (String.mk (List.replicate 600 'a'))
    (List.replicate 15 (TreeNode.mk "f" "file" "f" none none))

/-- The two components of Python's `urlparse` result that
`parse_github_url` reads. -/
structure Url where
  netloc : String
  path : String
  deriving DecidableEq, Repr

/-- Python `s.strip(c)` for a one-character strip set: remove every
leading and trailing occurrence of `c`. -/
def pyStripChar (c : Char) (s : List Char) : List Char :=
  ((s.dropWhile (· = c)).reverse.dropWhile (· = c)).reverse

/-- `parse_github_url(repo_url)` over the parsed URL:
`parsed.netloc != "github.com"` raises, then
`parsed.path.strip("/").split("/")` must have at least two parts and the
first two are returned (the final match returns the first two pieces
exactly when the `len(path_parts) < 2` check passes). -/
def parse_github_url (u : Url) : Except String (String × String) :=
  if u.netloc ≠ "github.com" then
    .error "Invalid GitHub URL"
  else
    match (pySplit '/' (pyStripChar '/' u.path.data)).map String.mk with
    | p0 :: p1 :: _ => .ok (p0, p1)
    | _ => .error "Invalid GitHub repository URL format"

/-- Slash-joined path segments (`"/".join(segs)`), used to state which
URL paths the parser maps to which pairs. -/
def joinSegs : List (List Char) → List Char
  | [] => []
  | [s] => s
  | s :: rest => s ++ '/' :: joinSegs rest

theorem pySplit_ne_nil (c : Char) (s : List Char) : pySplit c s ≠ [] := by
  induction s with
  | nil => simp [pySplit]
  | cons x xs ih =>
    cases h : pySplit c xs with
    | nil => exact absurd h ih
    | cons piece rest =>
      simp only [pySplit, h]
      split <;> simp

theorem pySplit_sep_cons (c : Char) (t : List Char) :
    pySplit c (c :: t) = [] :: pySplit c t := by
  cases h : pySplit c t with
  | nil => exact absurd h (pySplit_ne_nil c t)
  | cons piece rest =>
    simp [pySplit, h]

theorem pySplit_append_sep (c : Char) :
    ∀ (s t : List Char), s ≠ [] → (∀ x ∈ s, x ≠ c) →
      pySplit c (s ++ c :: t) = s :: pySplit c t := by
  intro s
  induction s with
  | nil => intro t h _; exact absurd rfl h
  | cons x xs ih =>
    intro t _ hx
    by_cases hxs : xs = []
    · subst hxs
      simp only [List.cons_append, List.nil_append]
      rw [pySplit, pySplit_sep_cons]
      simp [hx x (List.mem_cons_self _ _)]
    · simp only [List.cons_append]
      rw [pySplit, ih t hxs (fun y hy => hx y (List.mem_cons_of_mem _ hy))]
      simp [hx x (List.mem_cons_self _ _)]

theorem pySplit_no_sep (c : Char) :
    ∀ (s : List Char), (∀ x ∈ s, x ≠ c) → pySplit c s = [s] := by
  intro s
  induction s with
  | nil => intro _; rfl
  | cons x xs ih =>
    intro h
    rw [pySplit, ih (fun y hy => h y (List.mem_cons_of_mem _ hy))]
    simp [h x (List.mem_cons_self _ _)]

theorem pySplit_joinSegs (segs : List (List Char)) (hne : segs ≠ [])
    (hseg : ∀ s ∈ segs, s ≠ [] ∧ (∀ x ∈ s, x ≠ '/')) :
    pySplit '/' (joinSegs segs) = segs := by
  induction segs with
  | nil => exact absurd rfl hne
  | cons a rest ih =>
    cases rest with
    | nil =>
      show pySplit '/' (joinSegs [a]) = [a]
      rw [joinSegs]
      exact pySplit_no_sep '/' a (hseg a (List.mem_cons_self _ _)).2
    | cons b t =>
      show pySplit '/' (a ++ '/' :: joinSegs (b :: t)) = a :: b :: t
      rw [pySplit_append_sep '/' a _ (hseg a (List.mem_cons_self _ _)).1
        (hseg a (List.mem_cons_self _ _)).2]
      rw [ih (by simp) (fun s hs => hseg s (List.mem_cons_of_mem _ hs))]

theorem joinSegs_head (s : List Char) (rest : List (List Char)) :
    ∃ t, joinSegs (s :: rest) = s ++ t := by
  cases rest with
  | nil => exact ⟨[], by rw [joinSegs, List.append_nil]⟩
  | cons b t => exact ⟨'/' :: joinSegs (b :: t), rfl⟩

theorem joinSegs_last (segs : List (List Char)) (hne : segs ≠ [])
    (hseg : ∀ s ∈ segs, s ≠ [] ∧ (∀ x ∈ s, x ≠ '/')) :
    ∃ bs y, joinSegs segs = bs ++ [y] ∧ y ≠ '/' := by
  induction segs with
  | nil => exact absurd rfl hne
  | cons a rest ih =>
    cases rest with
    | nil =>
      obtain ⟨ha, hx⟩ := hseg a (List.mem_cons_self _ _)
      rcases List.eq_nil_or_concat a with rfl | ⟨bs, y, rfl⟩
      · exact absurd rfl ha
      · refine ⟨bs, y, ?_, hx y (by simp)⟩
        rw [joinSegs, List.concat_eq_append]
    | cons b t =>
      obtain ⟨bs, y, hj, hy⟩ := ih (by simp)
        (fun s hs => hseg s (List.mem_cons_of_mem _ hs))
      refine ⟨a ++ '/' :: bs, y, ?_, hy⟩
      show a ++ '/' :: joinSegs (b :: t) = a ++ '/' :: bs ++ [y]
      rw [hj]
      simp

theorem dropWhile_cons_of_ne (c x : Char) (xs : List Char) (h : x ≠ c) :
    (x :: xs).dropWhile (· = c) = x :: xs := by
  rw [List.dropWhile_cons, if_neg (by simp [h])]

theorem dropWhile_cons_self (c : Char) (xs : List Char) :
    (c :: xs).dropWhile (· = c) = xs.dropWhile (· = c) := by
  rw [List.dropWhile_cons, if_pos (by simp)]

/-- Stripping slashes from `'/' :: body` (optionally with one trailing
slash appended) gives back `body` whenever `body` starts and ends with a
non-slash character. -/
theorem pyStripChar_slash (body : List Char) (x0 : Char) (xs bs : List Char)
    (y : Char) (hhead : body = x0 :: xs) (hx0 : x0 ≠ '/')
    (hlast : body = bs ++ [y]) (hy : y ≠ '/') :
    pyStripChar '/' ('/' :: body) = body ∧
    pyStripChar '/' ('/' :: body ++ ['/']) = body := by
  have hrev : body.reverse = y :: bs.reverse := by
    rw [hlast, List.reverse_append]
    rfl
  have hdropbody : body.dropWhile (· = '/') = body := by
    rw [hhead]
    exact dropWhile_cons_of_ne _ _ _ hx0
  have hdrop_rev : body.reverse.dropWhile (· = '/') = body.reverse := by
    rw [hrev]
    exact dropWhile_cons_of_ne _ _ _ hy
  constructor
  · rw [pyStripChar, dropWhile_cons_self, hdropbody, hdrop_rev,
      List.reverse_reverse]
  · have hfront : ('/' :: (body ++ ['/'])).dropWhile (· = '/')
        = body ++ ['/'] := by
      rw [dropWhile_cons_self, hhead, List.cons_append]
      exact dropWhile_cons_of_ne _ _ _ hx0
    have hstep : pyStripChar '/' ('/' :: body ++ ['/'])
        = ((body ++ ['/']).reverse.dropWhile (· = '/')).reverse := by
      rw [pyStripChar, List.cons_append, hfront]
    rw [hstep, List.reverse_append, List.reverse_singleton,
      List.singleton_append, dropWhile_cons_self, hdrop_rev,
      List.reverse_reverse]

theorem dropWhile_replicate_append (c : Char) (k : Nat) (rest : List Char) :
    (List.replicate k c ++ rest).dropWhile (· = c)
      = rest.dropWhile (· = c) := by
  induction k with
  | zero => rw [List.replicate_zero, List.nil_append]
  | succ n ih => rw [List.replicate_succ, List.cons_append,
      dropWhile_cons_self, ih]

theorem pyStripChar_replicate_append (c : Char) (k : Nat) (s : List Char) :
    pyStripChar c (List.replicate k c ++ s) = pyStripChar c s := by
  rw [pyStripChar, pyStripChar, dropWhile_replicate_append]

theorem pyStripChar_append_replicate (c : Char) (k : Nat) (s : List Char) :
    pyStripChar c (s ++ List.replicate k c) = pyStripChar c s := by
  rw [pyStripChar, pyStripChar, List.dropWhile_append]
  by_cases h : (s.dropWhile (· = c)).isEmpty
  · rw [if_pos h]
    have hrep : (List.replicate k c).dropWhile (· = c) = [] := by
      have h0 := dropWhile_replicate_append c k ([] : List Char)
      rw [List.append_nil] at h0
      exact h0
    rw [List.isEmpty_iff] at h
    rw [hrep, h]
  · rw [if_neg h, List.reverse_append, List.reverse_replicate,
      dropWhile_replicate_append]

theorem pyStripChar_no_sep (c : Char) (seg : List Char)
    (h : ∀ x ∈ seg, x ≠ c) : pyStripChar c seg = seg := by
  have h1 : seg.dropWhile (· = c) = seg := by
    cases seg with
    | nil => rfl
    | cons x xs =>
      exact dropWhile_cons_of_ne c x xs (h x (List.mem_cons_self _ _))
  have h2 : seg.reverse.dropWhile (· = c) = seg.reverse := by
    rcases List.eq_nil_or_concat seg with rfl | ⟨bs, y, rfl⟩
    · rfl
    · rw [List.concat_eq_append, List.reverse_append, List.reverse_singleton,
        List.singleton_append]
      exact dropWhile_cons_of_ne c y _ (h y (by simp))
  rw [pyStripChar, h1, h2, List.reverse_reverse]

/-- C7 counterexample: the parser does not require the path segments to
be non-empty — "https://github.com/owner//repo" succeeds and returns
("owner", "") with an empty name, instead of failing or returning
("owner", "repo"). -/
theorem spec_C7_counterexample :
    parse_github_url ⟨"github.com", "/owner//repo"⟩ = .ok ("owner", "") ∧
    (("owner", "") : String × String) ≠ ("owner", "repo") ∧
    ("" : String).isEmpty = true :=
  ⟨rfl, by decide, rfl⟩

/-- C7 amended: a foreign host fails with the invalid-locator error; on
the expected host the parser strips slashes from both ends of the path,
splits on '/', requires at least two pieces — pieces may be empty when
the path has consecutive slashes — and returns the first two; whenever
the path is built of slash-free nonempty segments, the exact
(owner, name) pair is returned regardless of extra trailing segments or
one trailing slash; and any path holding fewer than two pieces after
stripping — a run of slashes around at most one slash-free segment —
fails with the invalid-format error.  The function is pure (a Lean
function of the parsed URL). -/
theorem spec_C7_amended :
    (∀ u : Url, u.netloc ≠ "github.com" →
      parse_github_url u = .error "Invalid GitHub URL") ∧
    (∀ (owner name : List Char) (rest : List (List Char)),
      (∀ s ∈ owner :: name :: rest, s ≠ [] ∧ (∀ x ∈ s, x ≠ '/')) →
      parse_github_url ⟨"github.com",
          String.mk ('/' :: joinSegs (owner :: name :: rest))⟩
        = .ok (String.mk owner, String.mk name) ∧
      parse_github_url ⟨"github.com",
          String.mk ('/' :: joinSegs (owner :: name :: rest) ++ ['/'])⟩
        = .ok (String.mk owner, String.mk name)) ∧
    (∀ (k1 k2 : Nat) (seg : List Char), (∀ x ∈ seg, x ≠ '/') →
      parse_github_url ⟨"github.com",
          String.mk (List.replicate k1 '/' ++ seg ++ List.replicate k2 '/')⟩
        = .error "Invalid GitHub repository URL format") := by
  refine ⟨?_, ?_, ?_⟩
  · intro u h
    rw [parse_github_url, if_pos h]
  · intro owner name rest hseg
    obtain ⟨howner, hox⟩ := hseg owner (List.mem_cons_self _ _)
    obtain ⟨o0, os, ho⟩ := List.exists_cons_of_ne_nil howner
    obtain ⟨t, ht⟩ := joinSegs_head owner (name :: rest)
    obtain ⟨bs, y, hj, hy⟩ := joinSegs_last (owner :: name :: rest)
      (by simp) hseg
    have hhead : joinSegs (owner :: name :: rest) = o0 :: (os ++ t) := by
      rw [ht, ho, List.cons_append]
    have hx0 : o0 ≠ '/' := hox o0 (by rw [ho]; exact List.mem_cons_self _ _)
    obtain ⟨hstrip1, hstrip2⟩ := pyStripChar_slash
      (joinSegs (owner :: name :: rest)) o0 (os ++ t) bs y hhead hx0 hj hy
    have hsplit : pySplit '/' (joinSegs (owner :: name :: rest))
        = owner :: name :: rest := pySplit_joinSegs _ (by simp) hseg
    constructor
    · rw [parse_github_url, if_neg (by simp)]
      show (match (pySplit '/' (pyStripChar '/'
          ('/' :: joinSegs (owner :: name :: rest)))).map String.mk with
        | p0 :: p1 :: _ => Except.ok (p0, p1)
        | _ => Except.error "Invalid GitHub repository URL format")
        = Except.ok (String.mk owner, String.mk name)
      rw [hstrip1, hsplit]
      rfl
    · rw [parse_github_url, if_neg (by simp)]
      show (match (pySplit '/' (pyStripChar '/'
          ('/' :: joinSegs (owner :: name :: rest) ++ ['/']))).map
            String.mk with
        | p0 :: p1 :: _ => Except.ok (p0, p1)
        | _ => Except.error "Invalid GitHub repository URL format")
        = Except.ok (String.mk owner, String.mk name)
      rw [hstrip2, hsplit]
      rfl
  · intro k1 k2 seg hseg
    have hstrip : pyStripChar '/'
        (List.replicate k1 '/' ++ seg ++ List.replicate k2 '/') = seg := by
      rw [pyStripChar_append_replicate, pyStripChar_replicate_append,
        pyStripChar_no_sep '/' seg hseg]
    rw [parse_github_url, if_neg (by simp)]
    show (match (pySplit '/' (pyStripChar '/'
        (List.replicate k1 '/' ++ seg ++ List.replicate k2 '/'))).map
          String.mk with
      | p0 :: p1 :: _ => Except.ok (p0, p1)
      | _ => Except.error "Invalid GitHub repository URL format")
      = Except.error "Invalid GitHub repository URL format"
    rw [hstrip, pySplit_no_sep '/' seg hseg]
    rfl

/-- C7 amended witness: a foreign-host URL fails; the path
"/owner/repo/extra" and its trailing-slash variant both parse to
("owner", "repo"); the one-segment path "/owner/" fails with the
invalid-format error. -/
theorem spec_C7_amended_witness :
    parse_github_url ⟨"gitlab.com", "/owner/repo"⟩
      = .error "Invalid GitHub URL" ∧
    (parse_github_url ⟨"github.com",
        String.mk ('/' :: joinSegs [['o', 'w', 'n', 'e', 'r'],
          ['r', 'e', 'p', 'o'], ['e', 'x', 't', 'r', 'a']])⟩
      = .ok (String.mk ['o', 'w', 'n', 'e', 'r'],
          String.mk ['r', 'e', 'p', 'o']) ∧
     parse_github_url ⟨"github.com",
        String.mk ('/' :: joinSegs [['o', 'w', 'n', 'e', 'r'],
          ['r', 'e', 'p', 'o'], ['e', 'x', 't', 'r', 'a']] ++ ['/'])⟩
      = .ok (String.mk ['o', 'w', 'n', 'e', 'r'],
          String.mk ['r', 'e', 'p', 'o'])) ∧
    parse_github_url ⟨"github.com",
        String.mk (List.replicate 1 '/' ++ ['o', 'w', 'n', 'e', 'r']
          ++ List.replicate 1 '/')⟩
      = .error "Invalid GitHub repository URL format" :=
  ⟨spec_C7_amended.1 ⟨"gitlab.com", "/owner/repo"⟩ (by decide),
   spec_C7_amended.2.1 ['o', 'w', 'n', 'e', 'r'] ['r', 'e', 'p', 'o']
     [['e', 'x', 't', 'r', 'a']] (by decide),
   spec_C7_amended.2.2 1 1 ['o', 'w', 'n', 'e', 'r'] (by decide)⟩

end GH
